import Mathlib

/-!
Shallow embedding of `mido/msg.py` (a single-file MIDI message library):
the message specification table, the validated message object, and the
byte serializer, together with theorems checking the natural-language
specification against this embedding.

Modelling conventions:
* Python values that can reach a message attribute are modelled by `PyVal`
  (unbounded integers, strings, floats, `None`, tuples).  Python `float`
  carries no payload here: the code only ever asks `isinstance(val, float)`
  and never computes with a float.
* A raising Python call is an `Except Err` computation; each distinct
  `raise` site is mapped to the error-taxonomy constructor of `Err` that
  names it (`ValueError` sites by their message, plus `NameError`,
  `TypeError`, `AttributeError` for the implicit failure modes).
* Python `&` and `>>` on unbounded ints are floored-modulus operations;
  on `Int`, Lean's `%` (`Int.emod`) and `/` (`Int.ediv`) agree with
  Python's `x & 0x7f` (= `x % 128`) and `x >> 7` (= floor division by
  128) for every integer, so the serializer uses `% 128` and `/ 128`
  where the source writes `& 0x7f` and `>> 7`.
* A Python object's `__dict__` is insertion-ordered; the dynamic
  attributes of a message are an insertion-ordered association list.
-/

namespace Mido

/-- A Python value as far as this module can observe one: the integers,
strings, floats, `None`, and tuples that can be stored in or assigned to a
message attribute. -/
inductive PyVal where
  | int (i : Int)
  | str (s : String)
  | float
  | noneV
  | tuple (xs : List PyVal)

/-- The declared size of a message type: a byte count, or unbounded
(`float('inf')` in the source, used for sysex). -/
inductive SpecSize where
  | fin (n : Nat)
  | inf
deriving DecidableEq, Repr

/-- One entry of the specification table: `Spec = namedtuple('Spec',
'opcode type args size')`. -/
structure Spec where
  opcode : Nat
  type : String
  args : List String
  size : SpecSize
deriving DecidableEq, Repr

/-- The authoritative message-type table `msg_specs`, transcribed entry by
entry from the source (sizes included as written there). -/
def msg_specs : List Spec := [
  ⟨0x80, "note_off",       ["channel", "note",    "velocity"], .fin 3⟩,
  ⟨0x90, "note_on",        ["channel", "note",    "velocity"], .fin 3⟩,
  ⟨0xa0, "polytouch",      ["channel", "note",    "value"],    .fin 3⟩,
  ⟨0xb0, "control_change", ["channel", "control", "value"],    .fin 3⟩,
  ⟨0xc0, "program_change", ["channel", "program"],             .fin 3⟩,
  ⟨0xd0, "aftertouch",     ["channel", "value"],               .fin 3⟩,
  ⟨0xe0, "pitchwheel",     ["channel", "value"],               .fin 3⟩,
  ⟨0xf0, "sysex",          ["data"],                           .inf⟩,
  ⟨0xf1, "undefined_f1",   [],                                 .fin 1⟩,
  ⟨0xf2, "songpos",        ["pos"],                            .fin 3⟩,
  ⟨0xf3, "song",           ["song"],                           .fin 2⟩,
  ⟨0xf4, "undefined_f4",   [],                                 .fin 1⟩,
  ⟨0xf5, "undefined_f5",   [],                                 .fin 1⟩,
  ⟨0xf6, "tune_request",   [],                                 .fin 1⟩,
  ⟨0xf7, "sysex_end",      [],                                 .fin 1⟩,
  ⟨0xf8, "clock",          [],                                 .fin 1⟩,
  ⟨0xf9, "undefined_f9",   [],                                 .fin 1⟩,
  ⟨0xfa, "start",          [],                                 .fin 1⟩,
  ⟨0xfb, "continue",       [],                                 .fin 1⟩,
  ⟨0xfc, "stop",           [],                                 .fin 1⟩,
  ⟨0xfd, "undefined_fd",   [],                                 .fin 1⟩,
  ⟨0xfe, "active_sensing", [],                                 .fin 1⟩,
  ⟨0xff, "reset",          [],                                 .fin 1⟩]

/-- A key of the `spec_lookup` dict: the source mixes integer opcode keys
and string type-name keys in one dictionary. -/
inductive Key where
  | op (n : Nat)
  | name (s : String)
deriving DecidableEq, Repr

/-- The insertion sequence of the `spec_lookup` dict, mirroring the build
loop: for every spec, channel messages (opcode < 0xf0) are registered under
the 16 keys `opcode + 0 .. opcode + 15`, system messages under their exact
opcode, and every spec additionally under its type name. -/
def specEntries : List (Key × Spec) :=
  msg_specs.foldl (fun acc s =>
    (if s.opcode < 0xf0 then
      acc ++ (List.range 16).map (fun i => (Key.op (s.opcode + i), s))
    else
      acc ++ [(Key.op s.opcode, s)]) ++ [(Key.name s.type, s)]) []

/-- Dictionary lookup in `spec_lookup`: the last insertion for a key wins
(Python dict assignment semantics). -/
def spec_lookup (k : Key) : Option Spec :=
  (specEntries.reverse.find? (fun e => e.1 == k)).map Prod.snd

/-- The errors this module can raise, one constructor per failure mode of
the source (the `ValueError` sites named by the error taxonomy, plus the
implicit `NameError` / `TypeError` / `AttributeError` failure modes). -/
inductive Err where
  | unknownMessageType
  | invalidField
  | invalidTime
  | invalidChannel
  | invalidSongPosition
  | invalidPitchBend
  | invalidDataByte
  | nameError
  | typeError
  | attributeError
deriving DecidableEq, Repr

/-- `pitchwheel_min = -8192`. -/
def pitchwheel_min : Int := -8192

/-- `pitchwheel_max = 8191`. -/
def pitchwheel_max : Int := 8191

/-- `isint(val)`: `isinstance(val, int)`. -/
def isint : PyVal → Bool
  | .int _ => true
  | _ => false

/-- `isnum(val)`: `isinstance(val, int) or isinstance(val, float) or
isinstance(val, long)` (Python 2 era module; `long` adds nothing to this
value universe). -/
def isnum : PyVal → Bool
  | .int _ => true
  | .float => true
  | _ => false

/-- `assert_time`: accepts `None` or a number, else raises. -/
def assert_time (v : PyVal) : Except Err Unit :=
  if (match v with | .noneV => true | _ => false) || isnum v then .ok ()
  else .error .invalidTime

/-- `assert_channel`: an integer in `range(0, 16)`, else raises. -/
def assert_channel (v : PyVal) : Except Err Unit :=
  match v with
  | .int c => if 0 ≤ c ∧ c < 16 then .ok () else .error .invalidChannel
  | _ => .error .invalidChannel

/-- `assert_songpos`: an integer in `range(0, 32768)`, else raises (the
source keeps this wider-than-14-bit bound). -/
def assert_songpos (v : PyVal) : Except Err Unit :=
  match v with
  | .int c => if 0 ≤ c ∧ c < 32768 then .ok () else .error .invalidSongPosition
  | _ => .error .invalidSongPosition

/-- `assert_pitchwheel`: an integer in `[pitchwheel_min, pitchwheel_max]`,
else raises.  (Defined in the source but never reached: the dispatch in
`__setattr__` misspells it and keys on a nonexistent field name.) -/
def assert_pitchwheel (v : PyVal) : Except Err Unit :=
  match v with
  | .int c => if pitchwheel_min ≤ c ∧ c ≤ pitchwheel_max then .ok ()
              else .error .invalidPitchBend
  | _ => .error .invalidPitchBend

/-- `assert_databyte`: an integer in `range(0, 128)`, else raises. -/
def assert_databyte (v : PyVal) : Except Err Unit :=
  match v with
  | .int c => if 0 ≤ c ∧ c < 128 then .ok () else .error .invalidDataByte
  | _ => .error .invalidDataByte

/-- `assert_databyte` over every element of a tuple, in order (the `for
byte in value` loop of `__setattr__`). -/
def assert_databytes : List PyVal → Except Err Unit
  | [] => .ok ()
  | x :: xs => do
    assert_databyte x
    assert_databytes xs

/-- `tuple(value)` as used on the sysex `data` field: a tuple stays itself,
a string becomes the tuple of its one-character strings (Python string
iteration), any non-iterable raises `TypeError`. -/
def tupleCoerce : PyVal → Except Err (List PyVal)
  | .tuple xs => .ok xs
  | .str s => .ok (s.data.map (fun c => .str (String.singleton c)))
  | _ => .error .typeError

/-- A MIDI message object: the fixed attributes set by `__init__` plus the
insertion-ordered `__dict__` slots for the fields declared in
`spec.args`, and the `time` attribute. -/
structure Message where
  spec : Spec
  opcode : Nat
  type : String
  attrs : List (String × PyVal)
  time : PyVal

/-- Association-list lookup, the dictionary read `d[name]` of a Python
`__dict__`: the first entry with the key wins (keys are unique in a
dict). -/
def alookup (name : String) : List (String × PyVal) → Option PyVal
  | [] => none
  | p :: t => if p.1 = name then some p.2 else alookup name t

/-- `getattr(msg, name)` for the dynamic attributes (`spec.args` slots and
`time`); `none` models `AttributeError`. -/
def Message.getattr (m : Message) (name : String) : Option PyVal :=
  if name == "time" then some m.time else alookup name m.attrs

/-- `hasattr(msg, name)` over the same attributes. -/
def Message.hasattr (m : Message) (name : String) : Bool :=
  (m.getattr name).isSome

/-- One dict store `d[name] = value`: replace in place if the key exists,
else append (Python dict insertion order). -/
def dictSet (d : List (String × PyVal)) (name : String) (v : PyVal) :
    List (String × PyVal) :=
  if d.any (fun p => p.1 == name) then
    d.map (fun p => if p.1 == name then (name, v) else p)
  else d ++ [(name, v)]

/-- `self.__dict__[name] = value`, the check-bypassing store used by
`_set` and by the committing line of `__setattr__`. -/
def Message.setRaw (m : Message) (name : String) (v : PyVal) : Message :=
  if name == "time" then { m with time := v }
  else { m with attrs := dictSet m.attrs name v }

/-- `Message.__setattr__`: names outside `spec.args ∪ {time}` are rejected;
`time`, `channel` and `pos` are range-checked; the dead `'pitchwheel'`
branch calls the misspelled `assert_pichwheel` (a `NameError` if ever
reached); `data` is coerced to a tuple and element-checked; every other
declared field is stored without any validation (the source's
`# Todo: validation`). -/
def Message.setattr (m : Message) (name : String) (v : PyVal) :
    Except Err Message :=
  if m.spec.args.contains name || name == "time" then
    if name == "time" then do
      assert_time v
      .ok (m.setRaw name v)
    else if name == "channel" then do
      assert_channel v
      .ok (m.setRaw name v)
    else if name == "pos" then do
      assert_songpos v
      .ok (m.setRaw name v)
    else if name == "pitchwheel" then
      .error .nameError
    else if name == "data" then do
      let xs ← tupleCoerce v
      assert_databytes xs
      .ok (m.setRaw name (.tuple xs))
    else
      .ok (m.setRaw name v)
  else .error .invalidField

/-- The default value `__init__` gives a declared field: `()` for `data`,
the extracted default channel for `channel`, `0` otherwise. -/
def defaultValue (dc : Int) (name : String) : PyVal :=
  if name == "data" then .tuple []
  else if name == "channel" then .int dc
  else .int 0

/-- The freshly defaulted message `__init__` builds before applying the
keyword overrides: the base opcode and default channel are split out of
`spec.opcode` (not out of the caller's raw opcode) when the spec is a
channel message, every declared field gets its default in `spec.args`
order, and `time` is 0. -/
def defaultMsg (spec : Spec) : Message :=
  { spec := spec,
    opcode := if spec.opcode < 0xf0 then spec.opcode &&& 0xf0 else spec.opcode,
    type := spec.type,
    attrs := spec.args.map (fun n => (n,
      defaultValue (if spec.opcode < 0xf0 then Int.ofNat (spec.opcode &&& 0x0f)
                    else 0) n)),
    time := .int 0 }

/-- `Message.__init__(type_or_opcode, **kw)`: resolve the spec (unknown
key raises), build the defaulted record, then apply the keyword overrides
one at a time through `__setattr__` (a failing override aborts the
construction). -/
def newMessage (k : Key) (kw : List (String × PyVal)) : Except Err Message :=
  match spec_lookup k with
  | none => .error .unknownMessageType
  | some spec => kw.foldlM (fun m p => m.setattr p.1 p.2) (defaultMsg spec)

/-- `dict.update`: apply the stores of `ov` left to right. -/
def dictUpdate (d ov : List (String × PyVal)) : List (String × PyVal) :=
  ov.foldl (fun acc p => dictSet acc p.1 p.2) d

/-- `Message.copy(**override)`: snapshot `time` and every declared field,
merge the overrides on top, and construct a brand-new message of the same
type from the merged keyword set. -/
def Message.copy (m : Message) (ov : List (String × PyVal)) :
    Except Err Message :=
  match m.spec.args.mapM (fun n => (m.getattr n).map (fun v => (n, v))) with
  | none => .error .attributeError
  | some snap => newMessage (Key.name m.type) (dictUpdate (("time", m.time) :: snap) ov)

/-- The first serialized byte: `opcode | channel` when the message carries
a channel attribute, else the bare opcode. -/
def Message.statusByte (m : Message) : Except Err PyVal :=
  match alookup "channel" m.attrs with
  | some (.int c) => .ok (.int (Int.lor (Int.ofNat m.opcode) c))
  | some _ => .error .typeError
  | none => .ok (.int (Int.ofNat m.opcode))

/-- The encoding of one declared field inside `Message.bytes`: `channel`
is skipped, `data` is spliced in, the pitchwheel `value` is re-biased by
`2**13` and split low-7 / high-7 (`% 128` and `/ 128` are Python's
`& 0x7f` and `>> 7`), the songpos branch reads the undefined global `msg`
(`msg.pos`) and so raises `NameError`, and any other field is appended
as-is. -/
def Message.encodeField (m : Message) (name : String) :
    Except Err (List PyVal) :=
  if name == "channel" then .ok []
  else if name == "data" then
    match m.getattr "data" with
    | some (.tuple xs) => .ok xs
    | some _ => .error .typeError
    | none => .error .attributeError
  else if m.type == "pitchwheel" && name == "value" then
    match m.getattr "value" with
    | some (.int v) =>
      let value := v + 2 ^ 13
      .ok [.int (value % 128), .int (value / 128)]
    | some _ => .error .typeError
    | none => .error .attributeError
  else if m.type == "songpos" && name == "pos" then
    .error .nameError
  else
    match m.getattr name with
    | some v => .ok [v]
    | none => .error .attributeError

/-- The field loop of `Message.bytes` over a list of field names. -/
def Message.encodeFields (m : Message) : List String → Except Err (List PyVal)
  | [] => .ok []
  | n :: rest => do
    let b ← m.encodeField n
    let bs ← m.encodeFields rest
    .ok (b ++ bs)

/-- `Message.bytes()`: the status byte, the declared fields in order, and
a trailing `0xf7` for sysex. -/
def Message.bytes (m : Message) : Except Err (List PyVal) := do
  let st ← m.statusByte
  let body ← m.encodeFields m.spec.args
  .ok (st :: body ++ (if m.type == "sysex" then [PyVal.int 0xf7] else []))

/-- The comparison key of `Message.__eq__`: the type together with the
values of the declared fields, `time` excluded. -/
def Message.key (m : Message) : String × List (Option PyVal) :=
  (m.type, m.spec.args.map (fun a => m.getattr a))

/-- `Message.__eq__`: equality of the comparison keys. -/
def msgEq (a b : Message) : Prop :=
  a.key = b.key

/-- Whether a stored value is legal for a field, following the documented
per-field ranges (channel in `[0,16)`, pos in `[0,32768)` as the source
bounds it, the pitchwheel value in `[-8192, 8191]`, data a tuple of
integers in `[0,128)`, every other field an integer in `[0,128)`). -/
def validValue (mtype name : String) (v : PyVal) : Bool :=
  if name == "channel" then
    match v with | .int c => decide (0 ≤ c ∧ c < 16) | _ => false
  else if name == "pos" then
    match v with | .int c => decide (0 ≤ c ∧ c < 32768) | _ => false
  else if mtype == "pitchwheel" && name == "value" then
    match v with | .int c => decide (-8192 ≤ c ∧ c ≤ 8191) | _ => false
  else if name == "data" then
    match v with
    | .tuple xs =>
      xs.all (fun x => match x with
        | .int i => decide (0 ≤ i ∧ i < 128)
        | _ => false)
    | _ => false
  else
    match v with | .int c => decide (0 ≤ c ∧ c < 128) | _ => false

/-- A structurally well-formed, in-range message: its spec is a table
entry, `type` and `opcode` are the resolved ones, the attribute slots are
exactly the declared fields in order, every stored value is legal for its
field, and `time` is a number or `None`. -/
def Message.valid (m : Message) : Bool :=
  decide (m.spec ∈ msg_specs) &&
  decide (m.type = m.spec.type) &&
  decide (m.opcode = (if m.spec.opcode < 0xf0 then m.spec.opcode &&& 0xf0
                      else m.spec.opcode)) &&
  decide (m.attrs.map Prod.fst = m.spec.args) &&
  m.attrs.all (fun p => validValue m.spec.type p.1 p.2) &&
  (match m.time with | .int _ => true | .float => true | .noneV => true | _ => false)

/-- Modelled from the spec: the declared encoded size of the canonical
table of section 4.1, with the corrected sizes 2 for `program_change` and
`aftertouch` (status byte plus non-channel fields, `pitchwheel`/`songpos`
one logical field expanding to two bytes), and `1 + len(data) + 1` for
sysex. -/
def specDeclaredSize (mtype : String) (dataLen : Nat) : Nat :=
  if mtype == "sysex" then 1 + dataLen + 1
  else if mtype == "note_off" || mtype == "note_on" || mtype == "polytouch"
       || mtype == "control_change" || mtype == "pitchwheel"
       || mtype == "songpos" then 3
  else if mtype == "program_change" || mtype == "aftertouch"
       || mtype == "song" then 2
  else 1

/-- The length of the stored sysex payload of a message (0 when the
message has no well-formed `data` attribute). -/
def Message.dataLen (m : Message) : Nat :=
  match m.getattr "data" with
  | some (.tuple xs) => xs.length
  | _ => 0

/-- The table entry for `note_on`. -/
def noteOnSpec : Spec := ⟨0x90, "note_on", ["channel", "note", "velocity"], .fin 3⟩

/-- The table entry for `pitchwheel`. -/
def pitchwheelSpec : Spec := ⟨0xe0, "pitchwheel", ["channel", "value"], .fin 3⟩

/-- The table entry for `songpos`. -/
def songposSpec : Spec := ⟨0xf2, "songpos", ["pos"], .fin 3⟩

/-- A pitchwheel message on channel 0 with the given stored value. -/
def pwMsg (v : Int) : Message :=
  ⟨pitchwheelSpec, 0xe0, "pitchwheel", [("channel", .int 0), ("value", .int v)], .int 0⟩

/-- A note_on message with the given channel, note, velocity and time. -/
def noteOnMsg (c n vel t : Int) : Message :=
  ⟨noteOnSpec, 0x90, "note_on",
   [("channel", .int c), ("note", .int n), ("velocity", .int vel)], .int t⟩

/-- Claim C1: for a valid songpos message, `bytes()` is claimed to split
`pos` into low then high 7 bits.  In the code the songpos branch of
`bytes()` reads the undefined global `msg` (`msg.pos` instead of
`self.pos`), so serializing any songpos message raises `NameError` and no
value bytes are produced: with pos=0 and with pos=200 alike, `bytes()`
fails instead of returning `[0xF2, 0x00, 0x00]` / `[0xF2, 0x48, 0x01]`. -/
theorem C1_songpos_bytes_raise :
    ∃ m0 m200 : Message,
      newMessage (Key.name "songpos") [("pos", PyVal.int 0)] = .ok m0 ∧
      newMessage (Key.name "songpos") [("pos", PyVal.int 200)] = .ok m200 ∧
      m0.valid = true ∧ m200.valid = true ∧
      m0.bytes = .error .nameError ∧ m200.bytes = .error .nameError :=
  ⟨⟨songposSpec, 0xf2, "songpos", [("pos", .int 0)], .int 0⟩,
   ⟨songposSpec, 0xf2, "songpos", [("pos", .int 200)], .int 0⟩,
   rfl, rfl, by decide, by decide, rfl, rfl⟩

/-- Claim C3: constructing from the raw opcode 0x91 is claimed to yield a
note_on with default channel 1 (the low nibble of the caller's opcode).
The code instead splits the channel out of `spec.opcode` — the base
opcode, whose low nibble is always 0 — so the default channel is 0, not
1. -/
theorem C3_opcode_channel_default :
    ∃ m : Message, newMessage (Key.op 0x91) [] = .ok m ∧
      m.type = "note_on" ∧ m.opcode = 0x90 ∧
      m.getattr "channel" = some (.int 0) ∧
      ¬ m.getattr "channel" = some (.int 1) :=
  ⟨⟨noteOnSpec, 0x90, "note_on",
    [("channel", .int 0), ("note", .int 0), ("velocity", .int 0)], .int 0⟩,
   rfl, rfl, rfl, rfl, fun h => by
     have h1 : PyVal.int 0 = PyVal.int 1 := Option.some.inj h
     have h2 : (0 : Int) = 1 := PyVal.int.inj h1
     exact absurd h2 (by decide)⟩

/-- Claim C4: assigning `value` on a pitchwheel message is claimed to
succeed iff the value is an integer in `[-8192, 8191]`, and otherwise fail
with `InvalidPitchBend`.  The dispatch in `__setattr__` keys on the
nonexistent field name `'pitchwheel'` (and misspells the checker as
`assert_pichwheel`), so the real field `value` falls into the unvalidated
branch: the out-of-range integer 99999 and even the non-integer string
`'oops'` are stored silently with no error at all. -/
theorem C4_pitchwheel_value_unchecked :
    ∃ m m1 m2 : Message,
      newMessage (Key.name "pitchwheel") [] = .ok m ∧ m.valid = true ∧
      m.setattr "value" (.int 99999) = .ok m1 ∧
      m1.getattr "value" = some (.int 99999) ∧
      m.setattr "value" (.str "oops") = .ok m2 ∧
      m2.getattr "value" = some (.str "oops") :=
  ⟨pwMsg 0,
   ⟨pitchwheelSpec, 0xe0, "pitchwheel",
    [("channel", .int 0), ("value", .int 99999)], .int 0⟩,
   ⟨pitchwheelSpec, 0xe0, "pitchwheel",
    [("channel", .int 0), ("value", .str "oops")], .int 0⟩,
   rfl, by decide, rfl, rfl, rfl, rfl⟩

/-- Claim C5: assigning any generic data-byte field (note, velocity,
control, program, the value of polytouch/control_change/aftertouch, song)
is claimed to succeed iff the value is an integer in `[0,128)`, else fail
with `InvalidDataByte`.  The validation chain of `__setattr__` has no
branch for these fields, so they are stored with no check: note = 200 (out
of range) and velocity = None (not an integer) are both silently
accepted. -/
theorem C5_databyte_fields_unchecked :
    ∃ m m1 m2 : Message,
      newMessage (Key.name "note_on") [] = .ok m ∧ m.valid = true ∧
      m.setattr "note" (.int 200) = .ok m1 ∧
      m1.getattr "note" = some (.int 200) ∧
      m.setattr "velocity" PyVal.noneV = .ok m2 ∧
      m2.getattr "velocity" = some PyVal.noneV :=
  ⟨noteOnMsg 0 0 0 0,
   ⟨noteOnSpec, 0x90, "note_on",
    [("channel", .int 0), ("note", .int 200), ("velocity", .int 0)], .int 0⟩,
   ⟨noteOnSpec, 0x90, "note_on",
    [("channel", .int 0), ("note", .int 0), ("velocity", .noneV)], .int 0⟩,
   rfl, by decide, rfl, rfl, rfl, rfl⟩

/-- Claim C7: in the built lookup table, every channel-message base opcode
(< 0xf0) resolves via all 16 channel-derived keys `base + 0..15` to the
same spec as the base opcode itself; every system opcode in 0xf0–0xff is
covered by exactly one table entry and resolves directly to it; and the 23
canonical type names are pairwise distinct keys, each resolving to its own
spec in the same table. -/
theorem C7_lookup_invariants :
    (∀ s ∈ msg_specs, s.opcode < 0xf0 →
      ∀ i ∈ List.range 16, spec_lookup (Key.op (s.opcode + i)) = some s)
  ∧ (∀ s ∈ msg_specs, 0xf0 ≤ s.opcode → spec_lookup (Key.op s.opcode) = some s)
  ∧ (∀ i ∈ List.range 16, ∃ s ∈ msg_specs,
      s.opcode = 0xf0 + i ∧ spec_lookup (Key.op (0xf0 + i)) = some s)
  ∧ (msg_specs.map Spec.type).Nodup
  ∧ (∀ s ∈ msg_specs, spec_lookup (Key.name s.type) = some s)
  ∧ msg_specs.length = 23 := by
  refine ⟨by decide, by decide, by decide, by decide, by decide, by decide⟩

/-- Two distinct table entries never share a type name. -/
theorem msg_specs_type_inj :
    ∀ s1 ∈ msg_specs, ∀ s2 ∈ msg_specs, s1.type = s2.type → s1 = s2 := by
  decide

/-- An association list whose key image is `a :: rest` starts with an
entry keyed `a`. -/
theorem map_fst_cons {l : List (String × PyVal)} {a : String}
    {rest : List String} (h : l.map Prod.fst = a :: rest) :
    ∃ x t, l = (a, x) :: t ∧ t.map Prod.fst = rest := by
  cases l with
  | nil => simp at h
  | cons p t =>
    simp only [List.map_cons, List.cons.injEq] at h
    exact ⟨p.2, t, by cases p; simp_all, h.2⟩

/-- An association list whose key image is empty is empty. -/
theorem map_fst_nil {l : List (String × PyVal)} (h : l.map Prod.fst = []) :
    l = [] := by
  cases l <;> simp_all

/-- Claim C6: for every valid pitchwheel message, `bytes()` re-biases the
signed value by adding 8192 and emits the low 7 bits and then the high 7
bits of the resulting unsigned 14-bit number, after the status byte
`0xE0 + channel`.  In particular value 0 gives the value bytes
`[0x00, 0x40]`, value -8192 gives `[0x00, 0x00]`, and value 8191 gives
`[0x7F, 0x7F]` (checked in the witness). -/
theorem C6_pitchwheel_encoding (m : Message) (c v : Int)
    (hv : m.valid = true) (ht : m.type = "pitchwheel")
    (hc : m.getattr "channel" = some (.int c))
    (hw : m.getattr "value" = some (.int v)) :
    m.bytes = .ok [.int (0xe0 + c),
                   .int (((v + 8192).toNat % 128 : Nat)),
                   .int (((v + 8192).toNat / 128 : Nat))] := by
  obtain ⟨spec, opc, ty, attrs, tm⟩ := m
  simp only [Message.valid, Bool.and_eq_true, decide_eq_true_eq] at hv
  obtain ⟨⟨⟨⟨⟨hmem, htype⟩, hopc⟩, hattrs⟩, hall⟩, -⟩ := hv
  simp only [Message.type] at ht htype  -- ty = "pitchwheel"
  subst ht
  have hspec : spec = pitchwheelSpec :=
    msg_specs_type_inj spec hmem pitchwheelSpec (by decide) (by
      simp only [pitchwheelSpec]
      exact htype.symm)
  subst hspec
  simp only [Message.opcode, pitchwheelSpec] at hopc
  simp at hopc
  subst hopc
  simp only [Message.attrs, pitchwheelSpec] at hattrs
  obtain ⟨x, t1, rfl, h1⟩ := map_fst_cons hattrs
  obtain ⟨y, t2, rfl, h2⟩ := map_fst_cons h1
  have ht2 := map_fst_nil h2
  subst ht2
  simp only [Message.getattr, Message.attrs, alookup] at hc hw
  simp at hc hw
  subst hc
  subst hw
  simp [validValue, pitchwheelSpec] at hall
  obtain ⟨⟨hc0, hc1⟩, hv0, hv1⟩ := hall
  have e1 : Int.lor 224 c = 224 + c := by
    interval_cases c <;> decide
  have e2 : (v + 2 ^ 13) % 128 = (((v + 8192).toNat % 128 : Nat) : Int) := by
    omega
  have e3 : (v + 2 ^ 13) / 128 = (((v + 8192).toNat / 128 : Nat) : Int) := by
    omega
  show Message.bytes _ = _
  simp only [Message.bytes, Message.statusByte, Message.encodeFields,
    Message.encodeField, Message.getattr, Message.attrs, Message.spec,
    Message.opcode, Message.type, pitchwheelSpec, alookup, bind,
    Except.bind]
  simp [e2, e3]
  refine ⟨?_, by omega, by omega⟩
  have h240 : (224 &&& 240 : Nat) = 224 := by decide
  rw [h240]
  exact e1

/-- Witness for C6: the claim's three examples, obtained by applying the
theorem at concrete valid pitchwheel messages: value 0 encodes its value
bytes as `[0x00, 0x40]`, value -8192 as `[0x00, 0x00]`, and value 8191 as
`[0x7F, 0x7F]`. -/
theorem C6_pitchwheel_encoding_witness :
    (pwMsg 0).valid = true ∧
    (pwMsg 0).bytes = .ok [.int 0xe0, .int 0x00, .int 0x40] ∧
    (pwMsg (-8192)).bytes = .ok [.int 0xe0, .int 0x00, .int 0x00] ∧
    (pwMsg 8191).bytes = .ok [.int 0xe0, .int 0x7f, .int 0x7f] := by
  refine ⟨by decide, ?_, ?_, ?_⟩
  · simpa using C6_pitchwheel_encoding (pwMsg 0) 0 0 (by decide) rfl rfl rfl
  · simpa using C6_pitchwheel_encoding (pwMsg (-8192)) 0 (-8192) (by decide) rfl rfl rfl
  · simpa using C6_pitchwheel_encoding (pwMsg 8191) 0 8191 (by decide) rfl rfl rfl

/-- Claim C10: for every system message type (opcode 0xf0–0xff, sysex
included), construction sets no channel attribute, assigning `channel`
(with any value whatsoever) fails as an invalid-field error, and
`bytes()` emits the bare opcode as the first byte — except that for
songpos `bytes()` raises `NameError` (the `msg.pos` slip) and so emits
nothing at all, which is where the claim fails on the code. -/
theorem C10_system_no_channel :
    ∀ v : PyVal, ∀ s ∈ msg_specs, 0xf0 ≤ s.opcode →
      ∃ m, newMessage (Key.op s.opcode) [] = .ok m ∧
        m.hasattr "channel" = false ∧
        m.setattr "channel" v = .error .invalidField ∧
        (s.type ≠ "songpos" →
          ∃ bs, m.bytes = .ok bs ∧ bs.head? = some (.int s.opcode)) ∧
        (s.type = "songpos" → m.bytes = .error .nameError) := by
  intro v s hs hop
  fin_cases hs <;>
    first
      | exact absurd hop (by decide)
      | exact ⟨_, rfl, rfl, rfl, fun hne => ⟨_, rfl, rfl⟩, fun h => by simp at h⟩
      | exact ⟨_, rfl, rfl, rfl, fun hne => absurd rfl hne, fun h => rfl⟩

/-- Witness for C10, at the concrete value 0 and the sysex entry: the
fresh sysex message has no channel, rejects a channel assignment, and its
first byte is the bare opcode 0xf0. -/
theorem C10_system_no_channel_witness :
    ∃ m, newMessage (Key.op 0xf0) [] = .ok m ∧
      m.hasattr "channel" = false ∧
      m.setattr "channel" (.int 0) = .error .invalidField ∧
      ("sysex" ≠ "songpos" →
        ∃ bs, m.bytes = .ok bs ∧ bs.head? = some (.int 0xf0)) ∧
      ("sysex" = "songpos" → m.bytes = .error .nameError) :=
  C10_system_no_channel (.int 0) ⟨0xf0, "sysex", ["data"], .inf⟩ (by decide)
    (by decide)

/-- A valid message's spec is a table entry and its `type` is that spec's
name. -/
theorem valid_mem_type (m : Message) (h : m.valid = true) :
    m.spec ∈ msg_specs ∧ m.type = m.spec.type := by
  simp only [Message.valid, Bool.and_eq_true, decide_eq_true_eq] at h
  exact ⟨h.1.1.1.1.1, h.1.1.1.1.2⟩

/-- Claim C8: two valid messages (however each was built) are equal under
`__eq__` iff their types agree and every declared field of the spec holds
the same value in both — element-wise for `data`, since stored tuples
compare structurally — with `time` playing no part in the comparison (the
right-hand side mentions only the declared fields). -/
theorem C8_eq_iff (a b : Message) (ha : a.valid = true) (hb : b.valid = true) :
    msgEq a b ↔ (a.type = b.type ∧ ∀ n ∈ a.spec.args, a.getattr n = b.getattr n) := by
  obtain ⟨hamem, hatype⟩ := valid_mem_type a ha
  obtain ⟨hbmem, hbtype⟩ := valid_mem_type b hb
  constructor
  · intro h
    have h1 : a.type = b.type := congrArg Prod.fst h
    have hspec : a.spec = b.spec :=
      msg_specs_type_inj a.spec hamem b.spec hbmem
        (hatype.symm.trans (h1.trans hbtype))
    have h2 : a.spec.args.map a.getattr = b.spec.args.map b.getattr :=
      congrArg Prod.snd h
    rw [← hspec] at h2
    exact ⟨h1, List.map_eq_map_iff.mp h2⟩
  · rintro ⟨h1, h2⟩
    have hspec : a.spec = b.spec :=
      msg_specs_type_inj a.spec hamem b.spec hbmem
        (hatype.symm.trans (h1.trans hbtype))
    have h2m : a.spec.args.map a.getattr = a.spec.args.map b.getattr :=
      List.map_eq_map_iff.mpr h2
    show (a.type, a.spec.args.map a.getattr) = (b.type, b.spec.args.map b.getattr)
    rw [h1, h2m, hspec]

/-- Witness for C8: two independently constructed note_on messages that
agree on channel/note/velocity but differ in time are equal; changing the
velocity breaks equality. -/
theorem C8_eq_iff_witness :
    msgEq (noteOnMsg 0 60 100 0) (noteOnMsg 0 60 100 5) ∧
    ¬ msgEq (noteOnMsg 0 60 100 0) (noteOnMsg 0 60 32 0) := by
  constructor
  · exact (C8_eq_iff _ _ (by decide) (by decide)).mpr
      ⟨rfl, by intro n hn; fin_cases hn <;> rfl⟩
  · intro h
    have h2 := (C8_eq_iff _ _ (by decide) (by decide)).mp h
    have h3 := h2.2 "velocity" (by decide)
    have h4 : PyVal.int 100 = PyVal.int 32 := Option.some.inj h3
    exact absurd (PyVal.int.inj h4) (by decide)

/-- A legal channel value is an integer. -/
theorem validValue_channel_shape (t : String) (v : PyVal)
    (h : validValue t "channel" v = true) : ∃ c : Int, v = .int c := by
  cases v <;> simp [validValue] at h <;> exact ⟨_, rfl⟩

/-- A legal pitchwheel value is an integer. -/
theorem validValue_pw_shape (v : PyVal)
    (h : validValue "pitchwheel" "value" v = true) : ∃ c : Int, v = .int c := by
  cases v <;> simp [validValue] at h <;> exact ⟨_, rfl⟩

/-- A legal sysex payload is a tuple. -/
theorem validValue_data_shape (t : String) (v : PyVal)
    (h : validValue t "data" v = true) : ∃ xs, v = .tuple xs := by
  cases v <;> simp [validValue] at h <;> exact ⟨_, rfl⟩

/-- Claim C2: for every valid message, `bytes()` is claimed to return a
sequence whose length is the spec's declared size (with the corrected
sizes 2 for program_change/aftertouch and `1 + len(data) + 1` for sysex).
This holds for every message type except songpos, whose `bytes()` raises
`NameError` (the `msg.pos` slip) instead of returning a 3-byte sequence —
the point where the claim fails on the code. -/
theorem C2_bytes_length (m : Message) (hv : m.valid = true) :
    (m.type ≠ "songpos" →
      ∃ bs, m.bytes = .ok bs ∧ bs.length = specDeclaredSize m.type m.dataLen)
  ∧ (m.type = "songpos" → m.bytes = .error .nameError) := by
  obtain ⟨spec, opc, ty, attrs, tm⟩ := m
  simp only [Message.valid, Bool.and_eq_true, decide_eq_true_eq] at hv
  obtain ⟨⟨⟨⟨⟨hmem, htype⟩, hopc⟩, hattrs⟩, hall⟩, -⟩ := hv
  simp only [Message.type, Message.spec, Message.attrs, Message.opcode]
    at htype hopc hattrs hall ⊢
  subst htype
  simp only [msg_specs, List.mem_cons, List.not_mem_nil, or_false] at hmem
  rcases hmem with rfl|rfl|rfl|rfl|rfl|rfl|rfl|rfl|rfl|rfl|rfl|rfl|rfl|rfl|rfl|
    rfl|rfl|rfl|rfl|rfl|rfl|rfl|rfl <;>
  (simp only [] at hopc hattrs hall ⊢; simp at hopc; subst hopc) <;>
  first
    | -- no declared fields
      (cases map_fst_nil hattrs
       exact ⟨fun hne => ⟨_, rfl, rfl⟩, fun h => by simp at h⟩)
    | -- songpos: bytes() raises NameError
      (obtain ⟨x1, t1, rfl, h1⟩ := map_fst_cons hattrs
       cases map_fst_nil h1
       exact ⟨fun hne => absurd rfl hne, fun _ => rfl⟩)
    | -- song: one ordinary field
      (obtain ⟨x1, t1, rfl, h1⟩ := map_fst_cons hattrs
       cases map_fst_nil h1
       exact ⟨fun hne => ⟨_, rfl, rfl⟩, fun h => by simp at h⟩)
    | -- sysex
      (obtain ⟨x1, t1, rfl, h1⟩ := map_fst_cons hattrs
       cases map_fst_nil h1
       simp only [List.all_cons, List.all_nil, Bool.and_eq_true, and_true] at hall
       obtain ⟨xs, rfl⟩ := validValue_data_shape _ _ hall
       refine ⟨fun hne => ⟨_, rfl, ?_⟩, fun h => by simp at h⟩
       simp [Message.dataLen, Message.getattr, specDeclaredSize, alookup]
       omega)
    | -- pitchwheel
      (obtain ⟨x1, t1, rfl, h1⟩ := map_fst_cons hattrs
       obtain ⟨x2, t2, rfl, h2⟩ := map_fst_cons h1
       cases map_fst_nil h2
       simp only [List.all_cons, List.all_nil, Bool.and_eq_true, and_true] at hall
       obtain ⟨c, rfl⟩ := validValue_channel_shape _ _ hall.1
       obtain ⟨w, rfl⟩ := validValue_pw_shape _ hall.2
       exact ⟨fun hne => ⟨_, rfl, rfl⟩, fun h => by simp at h⟩)
    | -- channel message with one other field
      (obtain ⟨x1, t1, rfl, h1⟩ := map_fst_cons hattrs
       obtain ⟨x2, t2, rfl, h2⟩ := map_fst_cons h1
       cases map_fst_nil h2
       simp only [List.all_cons, List.all_nil, Bool.and_eq_true, and_true] at hall
       obtain ⟨c, rfl⟩ := validValue_channel_shape _ _ hall.1
       exact ⟨fun hne => ⟨_, rfl, rfl⟩, fun h => by simp at h⟩)
    | -- channel message with two other fields
      (obtain ⟨x1, t1, rfl, h1⟩ := map_fst_cons hattrs
       obtain ⟨x2, t2, rfl, h2⟩ := map_fst_cons h1
       obtain ⟨x3, t3, rfl, h3⟩ := map_fst_cons h2
       cases map_fst_nil h3
       simp only [List.all_cons, List.all_nil, Bool.and_eq_true, and_true] at hall
       obtain ⟨c, rfl⟩ := validValue_channel_shape _ _ hall.1
       exact ⟨fun hne => ⟨_, rfl, rfl⟩, fun h => by simp at h⟩)

/-- Witness for C2, at a concrete valid note_on and the broken songpos:
the note_on byte sequence has the declared length 3, and the songpos
serializer raises. -/
theorem C2_bytes_length_witness :
    (∃ bs, (noteOnMsg 1 60 100 0).bytes = .ok bs ∧
      bs.length = specDeclaredSize "note_on" (noteOnMsg 1 60 100 0).dataLen) ∧
    (⟨songposSpec, 0xf2, "songpos", [("pos", PyVal.int 0)], PyVal.int 0⟩ :
      Message).bytes = .error .nameError := by
  constructor
  · exact (C2_bytes_length (noteOnMsg 1 60 100 0) (by decide)).1 (by decide)
  · exact (C2_bytes_length _ (by decide)).2 rfl

/-- Membership of a key among an association list's keys, phrased as the
`any` test that `dictSet` runs. -/
theorem any_key_iff (d : List (String × PyVal)) (n : String) :
    d.any (fun p => p.1 == n) = true ↔ n ∈ d.map Prod.fst := by
  induction d with
  | nil => simp
  | cons p t ih =>
    simp only [List.any_cons, Bool.or_eq_true, List.map_cons, List.mem_cons, ih,
      beq_iff_eq]
    exact or_congr ⟨Eq.symm, Eq.symm⟩ Iff.rfl

/-- Looking up a key that is not among an association list's keys gives
nothing. -/
theorem alookup_eq_none {l : List (String × PyVal)} {n : String}
    (h : n ∉ l.map Prod.fst) : alookup n l = none := by
  induction l with
  | nil => rfl
  | cons p t ih =>
    simp only [List.map_cons, List.mem_cons, not_or] at h
    rw [alookup, if_neg (fun he => h.1 he.symm)]
    exact ih h.2

/-- With pairwise-distinct keys, every entry of an association list is
found by `alookup`. -/
theorem alookup_of_mem_nodup {l : List (String × PyVal)}
    (hnd : (l.map Prod.fst).Nodup) {a : String} {b : PyVal}
    (hm : (a, b) ∈ l) : alookup a l = some b := by
  induction l with
  | nil => simp at hm
  | cons p t ih =>
    simp only [List.map_cons, List.nodup_cons] at hnd
    rcases List.mem_cons.mp hm with h | h
    · subst h
      rw [alookup, if_pos rfl]
    · have ha : p.1 ≠ a := by
        intro he
        exact hnd.1 (he ▸ (List.mem_map.mpr ⟨(a, b), h, rfl⟩))
      rw [alookup, if_neg ha]
      exact ih hnd.2 h

/-- `alookup` distributes over append, preferring the left list. -/
theorem alookup_append (d e : List (String × PyVal)) (n : String) :
    alookup n (d ++ e) =
      match alookup n d with
      | some w => some w
      | none => alookup n e := by
  induction d with
  | nil => rfl
  | cons p t ih =>
    rw [List.cons_append, alookup, alookup]
    by_cases hp : p.1 = n
    · rw [if_pos hp, if_pos hp]
    · rw [if_neg hp, if_neg hp, ih]

/-- The replace-in-place pass of `dictSet`, under `alookup`. -/
theorem alookup_map_set (d : List (String × PyVal)) (n : String) (v : PyVal)
    (n' : String) :
    alookup n' (d.map (fun p => if p.1 == n then (n, v) else p)) =
      if n' = n then (if d.any (fun p => p.1 == n) then some v else none)
      else alookup n' d := by
  induction d with
  | nil =>
    by_cases h : n' = n <;> simp [alookup, h]
  | cons p t ih =>
    simp only [beq_iff_eq] at ih ⊢
    by_cases hp : p.1 = n
    · by_cases hn : n' = n
      · subst hn
        subst hp
        simp [alookup, ih]
      · simp [alookup, hp, hn, ih, show p.1 ≠ n' from fun he => hn (he ▸ hp),
          show n ≠ n' from fun he => hn he.symm]
    · by_cases hq : p.1 = n'
      · simp [alookup, hp, hq, show ¬ n' = n from fun he => hp (by rw [hq, he])]
      · have hf : (p.1 == n) = false := by simp [hp]
        simp only [List.map_cons, List.any_cons, hf, Bool.false_or]
        rw [alookup, if_neg hp, if_neg hq, ih]
        by_cases hn : n' = n
        · rw [if_pos hn, if_pos hn]
        · rw [if_neg hn, if_neg hn, alookup, if_neg hq]

/-- A `dictSet` store behaves like a pointwise update under `alookup`. -/
theorem alookup_dictSet (d : List (String × PyVal)) (n : String) (v : PyVal)
    (n' : String) :
    alookup n' (dictSet d n v) = if n' = n then some v else alookup n' d := by
  unfold dictSet
  by_cases hany : d.any (fun p => p.1 == n) = true
  · rw [if_pos hany, alookup_map_set, hany]
    simp
  · rw [if_neg hany, alookup_append]
    by_cases hn : n' = n
    · rw [alookup_eq_none (fun hm => hany ((any_key_iff d n).mpr (hn ▸ hm))),
        if_pos hn]
      rw [alookup, if_pos hn.symm]
    · rw [if_neg hn]
      cases he : alookup n' d
      · rw [alookup, if_neg (fun hx => hn hx.symm)]
        rfl
      · rfl

/-- `dictSet` never changes the key sequence when the key is present, and
appends it otherwise. -/
theorem keys_dictSet (d : List (String × PyVal)) (n : String) (v : PyVal) :
    (dictSet d n v).map Prod.fst =
      if d.any (fun p => p.1 == n) = true then d.map Prod.fst
      else d.map Prod.fst ++ [n] := by
  unfold dictSet
  by_cases hany : d.any (fun p => p.1 == n) = true
  · rw [if_pos hany, if_pos hany, List.map_map]
    refine List.map_congr_left ?_
    intro p hp
    by_cases h : p.1 = n
    · simp [h]
    · simp [h]
  · rw [if_neg hany, if_neg hany, List.map_append]
    rfl

/-- Every entry of a `dictSet` result comes from the original list or is
the stored pair. -/
theorem mem_dictSet {d : List (String × PyVal)} {n : String} {v : PyVal}
    {q : String × PyVal} (hq : q ∈ dictSet d n v) : q ∈ d ∨ q = (n, v) := by
  unfold dictSet at hq
  by_cases hany : d.any (fun p => p.1 == n) = true
  · rw [if_pos hany] at hq
    obtain ⟨p, hp, he⟩ := List.mem_map.mp hq
    by_cases h : p.1 = n
    · right
      simp [h] at he
      exact he.symm
    · left
      simp [h] at he
      exact he ▸ hp
  · rw [if_neg hany] at hq
    rcases List.mem_append.mp hq with h | h
    · exact Or.inl h
    · exact Or.inr (List.mem_singleton.mp h)

/-- `setRaw` never changes the spec. -/
theorem setRaw_spec (m : Message) (n : String) (v : PyVal) :
    (m.setRaw n v).spec = m.spec := by
  unfold Message.setRaw
  split <;> rfl

/-- `setRaw` never changes the type. -/
theorem setRaw_type (m : Message) (n : String) (v : PyVal) :
    (m.setRaw n v).type = m.type := by
  unfold Message.setRaw
  split <;> rfl

/-- `setRaw` is a pointwise attribute update under `getattr`. -/
theorem getattr_setRaw (m : Message) (k : String) (v : PyVal) (n : String) :
    (m.setRaw k v).getattr n = if n = k then some v else m.getattr n := by
  unfold Message.setRaw Message.getattr
  by_cases hk : k = "time"
  · subst hk
    simp only [beq_self_eq_true, if_true]
    by_cases hn : n = "time"
    · subst hn
      simp
    · simp [hn]
  · have hkf : (k == "time") = false := by simp [hk]
    simp only [hkf, Bool.false_eq_true, if_false]
    by_cases hn : n = "time"
    · subst hn
      simp [show ¬ ("time" = k) from fun he => hk he.symm]
    · simp [hn, alookup_dictSet]

/-- Applying a list of raw stores in order. -/
def applyRaw (m : Message) (kw : List (String × PyVal)) : Message :=
  kw.foldl (fun a p => a.setRaw p.1 p.2) m

/-- Raw stores never change the spec. -/
theorem applyRaw_spec (kw : List (String × PyVal)) :
    ∀ m : Message, (applyRaw m kw).spec = m.spec := by
  induction kw with
  | nil => intro m; rfl
  | cons p t ih =>
    intro m
    show (applyRaw (m.setRaw p.1 p.2) t).spec = m.spec
    rw [ih, setRaw_spec]

/-- Raw stores never change the type. -/
theorem applyRaw_type (kw : List (String × PyVal)) :
    ∀ m : Message, (applyRaw m kw).type = m.type := by
  induction kw with
  | nil => intro m; rfl
  | cons p t ih =>
    intro m
    show (applyRaw (m.setRaw p.1 p.2) t).type = m.type
    rw [ih, setRaw_type]

/-- Reading an attribute after a list of raw stores with pairwise-distinct
keys: the stored value if the key was stored, the old value otherwise. -/
theorem getattr_applyRaw (kw : List (String × PyVal)) :
    (kw.map Prod.fst).Nodup → ∀ (m : Message) (n : String),
    (applyRaw m kw).getattr n =
      match alookup n kw with
      | some w => some w
      | none => m.getattr n := by
  induction kw with
  | nil =>
    intro _ m n
    simp [applyRaw, alookup]
  | cons p t ih =>
    intro hnd m n
    simp only [List.map_cons, List.nodup_cons] at hnd
    show (applyRaw (m.setRaw p.1 p.2) t).getattr n = _
    rw [ih hnd.2, getattr_setRaw]
    by_cases hn : p.1 = n
    · subst hn
      rw [alookup_eq_none hnd.1]
      rw [alookup, if_pos rfl, if_pos rfl]
    · rw [alookup, if_neg hn]
      cases he : alookup n t
      · rw [if_neg (fun hx => hn hx.symm)]
      · rfl

/-- A legal channel value passes `assert_channel`. -/
theorem assert_channel_ok {t : String} {v : PyVal}
    (h : validValue t "channel" v = true) : assert_channel v = .ok () := by
  cases v <;> simp [validValue] at h <;> simp [assert_channel, h]

/-- A legal song-position value passes `assert_songpos`. -/
theorem assert_songpos_ok {t : String} {v : PyVal}
    (h : validValue t "pos" v = true) : assert_songpos v = .ok () := by
  cases v <;> simp [validValue] at h <;> simp [assert_songpos, h]

/-- A tuple of legal data bytes passes the element loop. -/
theorem assert_databytes_ok {xs : List PyVal}
    (h : xs.all (fun x => match x with
      | PyVal.int i => decide (0 ≤ i ∧ i < 128)
      | _ => false) = true) : assert_databytes xs = .ok () := by
  induction xs with
  | nil => rfl
  | cons x t ih =>
    simp only [List.all_cons, Bool.and_eq_true] at h
    have hx : assert_databyte x = .ok () := by
      cases x <;> simp at h <;> simp [assert_databyte, h.1]
    simp [assert_databytes, hx, Bind.bind, Except.bind, ih h.2]

/-- Whether `__setattr__` accepts a value for a field and stores it
unchanged: `time` takes `None` or a number, every declared field takes a
value legal for it per `validValue`. -/
def validOv (spec : Spec) (name : String) (v : PyVal) : Bool :=
  if name = "time" then
    (match v with | .noneV => true | _ => false) || isnum v
  else validValue spec.type name v

/-- Table facts used for validated assignment: per-spec argument lists
have distinct names, never contain `time` or `pitchwheel` as a field
name, and the spec is found by name lookup. -/
theorem spec_args_props :
    ∀ s ∈ msg_specs, s.args.Nodup ∧ "time" ∉ s.args ∧ "pitchwheel" ∉ s.args ∧
      spec_lookup (Key.name s.type) = some s := by
  decide

/-- A validated assignment that `validOv` approves succeeds and commits
exactly the given value through the raw store. -/
theorem setattr_ok (m : Message) (name : String) (v : PyVal)
    (hmem : m.spec ∈ msg_specs)
    (hname : name ∈ m.spec.args ∨ name = "time")
    (hv : validOv m.spec name v = true) :
    m.setattr name v = .ok (m.setRaw name v) := by
  have hcond : (m.spec.args.contains name || name == "time") = true := by
    rcases hname with h | h
    · simp [List.elem_iff, List.contains, h]
    · simp [h]
  unfold Message.setattr
  rw [if_pos hcond]
  by_cases ht : name = "time"
  · subst ht
    unfold validOv at hv
    rw [if_pos rfl] at hv
    simp only [beq_self_eq_true, if_true]
    have : assert_time v = .ok () := by
      unfold assert_time
      rw [if_pos hv]
    simp [this, Bind.bind, Except.bind]
  · unfold validOv at hv
    rw [if_neg ht] at hv
    have htf : (name == "time") = false := by simp [ht]
    have hargs : name ∈ m.spec.args := by
      rcases hname with h | h
      · exact h
      · exact absurd h ht
    simp only [htf, Bool.false_eq_true, if_false]
    by_cases hc : name = "channel"
    · subst hc
      simp only [beq_self_eq_true, if_true]
      simp [assert_channel_ok hv, Bind.bind, Except.bind]
    · have hcf : (name == "channel") = false := by simp [hc]
      simp only [hcf, Bool.false_eq_true, if_false]
      by_cases hp : name = "pos"
      · subst hp
        simp only [beq_self_eq_true, if_true]
        simp [assert_songpos_ok hv, Bind.bind, Except.bind]
      · have hpf : (name == "pos") = false := by simp [hp]
        simp only [hpf, Bool.false_eq_true, if_false]
        have hpw : ¬ name = "pitchwheel" := by
          intro he
          exact (spec_args_props m.spec hmem).2.2.1 (he ▸ hargs)
        have hpwf : (name == "pitchwheel") = false := by simp [hpw]
        simp only [hpwf, Bool.false_eq_true, if_false]
        by_cases hd : name = "data"
        · subst hd
          unfold validValue at hv
          simp only [show (("data" : String) == "channel") = false from by decide,
            show (("data" : String) == "pos") = false from by decide,
            show (("data" : String) == "value") = false from by decide,
            show (("data" : String) == "data") = true from by decide,
            Bool.and_false, Bool.false_eq_true, if_false, if_true] at hv
          cases v with
          | tuple xs =>
            simp only [beq_self_eq_true, if_true]
            simp [tupleCoerce, assert_databytes_ok hv, Bind.bind, Except.bind]
          | int i => simp at hv
          | str s => simp at hv
          | float => simp at hv
          | noneV => simp at hv
        · have hdf : (name == "data") = false := by simp [hd]
          simp only [hdf, Bool.false_eq_true, if_false]

/-- A keyword list whose every entry `validOv`-passes is applied by the
override loop exactly as the corresponding raw stores. -/
theorem setattrs_ok (kw : List (String × PyVal)) :
    ∀ m : Message, m.spec ∈ msg_specs →
    (∀ p ∈ kw, (p.1 ∈ m.spec.args ∨ p.1 = "time") ∧ validOv m.spec p.1 p.2 = true) →
    kw.foldlM (fun a p => a.setattr p.1 p.2) m = .ok (applyRaw m kw) := by
  induction kw with
  | nil => intro m _ _; rfl
  | cons p t ih =>
    intro m hmem hk
    have h1 := hk p (by simp)
    have hs := setattr_ok m p.1 p.2 hmem h1.1 h1.2
    rw [List.foldlM_cons, hs]
    show (t.foldlM (fun a p => a.setattr p.1 p.2) (m.setRaw p.1 p.2)) = _
    rw [ih (m.setRaw p.1 p.2) (by rw [setRaw_spec]; exact hmem)]
    · rfl
    · intro q hq
      rw [setRaw_spec]
      exact hk q (by simp [hq])

/-- Gathering present attributes over a key list reproduces the
association list itself. -/
theorem mapM_snapshot (f : String → Option PyVal) :
    ∀ l : List (String × PyVal), (∀ p ∈ l, f p.1 = some p.2) →
    (l.map Prod.fst).mapM (fun n => (f n).map (fun v => (n, v))) = some l := by
  intro l
  induction l with
  | nil => intro _; rfl
  | cons p t ih =>
    intro hf
    have h1 : f p.1 = some p.2 := hf p (by simp)
    simp only [List.map_cons, List.mapM_cons, h1, Option.map_some,
      Option.pure_def, Option.bind_eq_bind, Option.some_bind,
      ih (fun q hq => hf q (by simp [hq]))]
    rfl

/-- `dictUpdate` under `alookup`: the override value when the key was
overridden (override keys pairwise distinct), the base value otherwise. -/
theorem alookup_dictUpdate (ov : List (String × PyVal)) :
    ∀ (d : List (String × PyVal)) (k : String), (ov.map Prod.fst).Nodup →
    alookup k (dictUpdate d ov) =
      match alookup k ov with
      | some w => some w
      | none => alookup k d := by
  induction ov with
  | nil => intro d k _; rfl
  | cons p t ih =>
    intro d k hnd
    simp only [List.map_cons, List.nodup_cons] at hnd
    show alookup k (dictUpdate (dictSet d p.1 p.2) t) = _
    rw [ih _ k hnd.2]
    by_cases hp : p.1 = k
    · subst hp
      rw [alookup_eq_none hnd.1, alookup, if_pos rfl, alookup_dictSet,
        if_pos rfl]
    · rw [alookup, if_neg hp]
      cases he : alookup k t
      · rw [alookup_dictSet, if_neg (fun hx => hp hx.symm)]
      · rfl

/-- `dictUpdate` preserves the key sequence when every override key is
already present. -/
theorem keys_dictUpdate (ov : List (String × PyVal)) :
    ∀ d : List (String × PyVal), (∀ p ∈ ov, p.1 ∈ d.map Prod.fst) →
    (dictUpdate d ov).map Prod.fst = d.map Prod.fst := by
  induction ov with
  | nil => intro d _; rfl
  | cons p t ih =>
    intro d h
    have hany : d.any (fun q => q.1 == p.1) = true :=
      (any_key_iff d p.1).mpr (h p (by simp))
    have hkeys : (dictSet d p.1 p.2).map Prod.fst = d.map Prod.fst := by
      rw [keys_dictSet, if_pos hany]
    show (dictUpdate (dictSet d p.1 p.2) t).map Prod.fst = d.map Prod.fst
    rw [ih _ (fun q hq => hkeys ▸ h q (by simp [hq])), hkeys]

/-- Every entry of a `dictUpdate` result comes from the base list or from
the overrides. -/
theorem mem_dictUpdate (ov : List (String × PyVal)) :
    ∀ (d : List (String × PyVal)) (q : String × PyVal),
    q ∈ dictUpdate d ov → q ∈ d ∨ q ∈ ov := by
  induction ov with
  | nil => intro d q hq; exact Or.inl hq
  | cons p t ih =>
    intro d q hq
    rcases ih _ q hq with h | h
    · rcases mem_dictSet h with h2 | h2
      · exact Or.inl h2
      · exact Or.inr (by simp [h2])
    · exact Or.inr (by simp [h])

/-- A key that appears among an association list's keys is found. -/
theorem alookup_isSome_of_mem {l : List (String × PyVal)} {n : String}
    (h : n ∈ l.map Prod.fst) : ∃ w, alookup n l = some w := by
  induction l with
  | nil => simp at h
  | cons p t ih =>
    by_cases hp : p.1 = n
    · exact ⟨p.2, by rw [alookup, if_pos hp]⟩
    · rw [alookup, if_neg hp]
      refine ih ?_
      simp only [List.map_cons, List.mem_cons] at h
      rcases h with h | h
      · exact absurd h.symm hp
      · exact h

/-- Constructing by name with a resolvable type runs the override loop on
the defaulted record. -/
theorem newMessage_name_eq (t : String) (spec : Spec)
    (h : spec_lookup (Key.name t) = some spec)
    (kw : List (String × PyVal)) :
    newMessage (Key.name t) kw =
      kw.foldlM (fun m p => m.setattr p.1 p.2) (defaultMsg spec) := by
  unfold newMessage
  rw [h]

/-- Claim C9: for every valid message and every set of declared-field or
time overrides with distinct keys and spec-legal values, `copy` succeeds
and returns a message of the same spec and type whose overridden
attributes hold the override values and whose every other attribute —
`time` included — equals the original's; and for every override list
whatsoever, `copy` is literally the full construction-and-validation path
run on the merged keyword set, so an invalid override fails exactly as the
corresponding fresh construction does.  (The embedding is pure: the
original message value is untouched by construction of the copy.) -/
theorem C9_copy (m : Message) (hm : m.valid = true)
    (ov : List (String × PyVal))
    (hks : ∀ p ∈ ov, p.1 ∈ m.spec.args ∨ p.1 = "time")
    (hnd : (ov.map Prod.fst).Nodup)
    (hvs : ∀ p ∈ ov, validOv m.spec p.1 p.2 = true) :
    ∃ m', m.copy ov = .ok m' ∧ m'.spec = m.spec ∧ m'.type = m.type ∧
      (∀ n ∈ m.spec.args, m'.getattr n =
        match alookup n ov with
        | some w => some w
        | none => m.getattr n) ∧
      (m'.getattr "time" =
        match alookup "time" ov with
        | some w => some w
        | none => some m.time) ∧
      (∀ ov2, m.copy ov2 = newMessage (Key.name m.type)
        (dictUpdate (("time", m.time) :: m.attrs) ov2)) := by
  simp only [Message.valid, Bool.and_eq_true, decide_eq_true_eq] at hm
  obtain ⟨⟨⟨⟨⟨hmem, htype⟩, hopc⟩, hattrs⟩, hall⟩, htime⟩ := hm
  obtain ⟨hargsnd, htimea, hpwa, hlk0⟩ := spec_args_props m.spec hmem
  have hattrnd : (m.attrs.map Prod.fst).Nodup := hattrs ▸ hargsnd
  have hsnap : m.spec.args.mapM
      (fun n => (m.getattr n).map (fun v => (n, v))) = some m.attrs := by
    rw [← hattrs]
    refine mapM_snapshot _ m.attrs ?_
    intro p hp
    have hkey : p.1 ∈ m.spec.args := hattrs ▸ List.mem_map.mpr ⟨p, hp, rfl⟩
    have hnt : ¬ p.1 = "time" := fun he => htimea (he ▸ hkey)
    unfold Message.getattr
    rw [if_neg (by simpa using hnt)]
    exact alookup_of_mem_nodup hattrnd hp
  have hcopydef : ∀ ov2, m.copy ov2 = newMessage (Key.name m.type)
      (dictUpdate (("time", m.time) :: m.attrs) ov2) := by
    intro ov2
    unfold Message.copy
    rw [hsnap]
  have hlk : spec_lookup (Key.name m.type) = some m.spec := htype ▸ hlk0
  have hbasekeys : (("time", m.time) :: m.attrs).map Prod.fst =
      "time" :: m.spec.args := by
    rw [List.map_cons, hattrs]
  have hovkeys : ∀ p ∈ ov, p.1 ∈ (("time", m.time) :: m.attrs).map Prod.fst := by
    intro p hp
    rw [hbasekeys]
    rcases hks p hp with h | h
    · exact List.mem_cons.mpr (Or.inr h)
    · exact List.mem_cons.mpr (Or.inl h)
  have hkwkeys : (dictUpdate (("time", m.time) :: m.attrs) ov).map Prod.fst =
      "time" :: m.spec.args :=
    (keys_dictUpdate ov _ hovkeys).trans hbasekeys
  have hkwnd : ((dictUpdate (("time", m.time) :: m.attrs) ov).map Prod.fst).Nodup := by
    rw [hkwkeys]
    exact List.nodup_cons.mpr ⟨htimea, hargsnd⟩
  have hkwvalid : ∀ p ∈ dictUpdate (("time", m.time) :: m.attrs) ov,
      (p.1 ∈ (defaultMsg m.spec).spec.args ∨ p.1 = "time") ∧
      validOv (defaultMsg m.spec).spec p.1 p.2 = true := by
    intro p hp
    show (p.1 ∈ m.spec.args ∨ p.1 = "time") ∧ validOv m.spec p.1 p.2 = true
    rcases mem_dictUpdate ov _ p hp with h | h
    · rcases List.mem_cons.mp h with h2 | h2
      · subst h2
        refine ⟨Or.inr rfl, ?_⟩
        unfold validOv
        rw [if_pos rfl]
        cases hmt : m.time <;> simp [hmt] at htime <;> simp [isnum]
      · have hkey : p.1 ∈ m.spec.args := hattrs ▸ List.mem_map.mpr ⟨p, h2, rfl⟩
        refine ⟨Or.inl hkey, ?_⟩
        unfold validOv
        rw [if_neg (fun he : p.1 = "time" => htimea (he ▸ hkey))]
        have := List.all_eq_true.mp hall p h2
        exact this
    · exact ⟨hks p h, hvs p h⟩
  have hmain : m.copy ov = .ok (applyRaw (defaultMsg m.spec)
      (dictUpdate (("time", m.time) :: m.attrs) ov)) := by
    rw [hcopydef ov, newMessage_name_eq _ _ hlk,
      setattrs_ok _ (defaultMsg m.spec) hmem hkwvalid]
  refine ⟨_, hmain, ?_, ?_, ?_, ?_, hcopydef⟩
  · exact applyRaw_spec _ _
  · rw [applyRaw_type]
    exact htype.symm
  · intro n hn
    rw [getattr_applyRaw _ hkwnd, alookup_dictUpdate ov _ n hnd]
    have hnt : ¬ ("time" = n) := fun he => htimea (he ▸ hn)
    cases halo : alookup n ov
    · obtain ⟨w, hw⟩ := alookup_isSome_of_mem (l := m.attrs) (hattrs ▸ hn)
      have hnt2 : (n == "time") = false := by
        simp only [beq_eq_false_iff_ne, ne_eq]
        exact fun he => hnt he.symm
      unfold Message.getattr
      rw [alookup, if_neg hnt, hw]
      simp [hnt2]
    · rfl
  · rw [getattr_applyRaw _ hkwnd, alookup_dictUpdate ov _ _ hnd]
    cases halo : alookup "time" ov
    · rw [alookup, if_pos rfl]
    · rfl

/-- Witness for C9: copying a concrete valid note_on with a velocity
override succeeds, keeps type and all other fields (time included), takes
the overridden velocity, and routes through the construction path. -/
theorem C9_copy_witness :
    ∃ m', (noteOnMsg 0 60 100 0).copy [("velocity", PyVal.int 32)] = .ok m' ∧
      m'.spec = (noteOnMsg 0 60 100 0).spec ∧
      m'.type = (noteOnMsg 0 60 100 0).type ∧
      (∀ n ∈ (noteOnMsg 0 60 100 0).spec.args, m'.getattr n =
        match alookup n [("velocity", PyVal.int 32)] with
        | some w => some w
        | none => (noteOnMsg 0 60 100 0).getattr n) ∧
      (m'.getattr "time" =
        match alookup "time" [("velocity", PyVal.int 32)] with
        | some w => some w
        | none => some (noteOnMsg 0 60 100 0).time) ∧
      (∀ ov2, (noteOnMsg 0 60 100 0).copy ov2 =
        newMessage (Key.name (noteOnMsg 0 60 100 0).type)
          (dictUpdate (("time", (noteOnMsg 0 60 100 0).time) ::
            (noteOnMsg 0 60 100 0).attrs) ov2)) :=
  C9_copy (noteOnMsg 0 60 100 0) (by decide) [("velocity", PyVal.int 32)]
    (by decide) (by decide) (by decide)

end Mido
